import Mathlib

set_option maxHeartbeats 1000000

/-!
Verification of the gaia object-modeling engine core against its design
specification.  The definitions below are shallow embeddings of the
program sources:

* `src/core/collections/ObservableCollection.ts` — the ordered collection
  with batched, event-surrounded mutation (`_add`, `_remove`, `insert`,
  `add`, `remove`, `removeAt`).
* `Field` (value inheritance from a Member) and the `SimpleValue`
  implementations of the Value contract (`src/core/values`).
* `src/core/orchestrator/Orchestrator.ts` — the RFC-mediated operations
  (`createNamespace`, `createMembers`, `move`, `deleteMembers`).
* the collection reconciliation routine `syncToMaster`, modelled from the
  specification (its source file is not part of this snapshot).

JavaScript arrays are embedded as `List`, `Array.prototype.splice` as the
clamping `spliceInsert`/`spliceRemove` below, and the stable
`Array.prototype.sort` as `List.insertionSort` with the source's
comparators.  Event emission is embedded as an explicit operation trace.
-/

/- ===================================================================
   ObservableCollection.ts
   =================================================================== -/

/-- Embeds `ItemAdd<T>` (ObservableCollection.ts line 35): an (item, index)
entry of a batched add. -/
structure ItemAdd (T : Type) where
  item : T
  index : Nat
deriving DecidableEq

/-- Embeds `ItemRemove<T>` (ObservableCollection.ts line 41): an
(item, index) entry of a batched remove. -/
structure ItemRemove (T : Type) where
  item : T
  index : Nat
deriving DecidableEq

/-- Embeds `items.sort(sortByIndex)` (ObservableCollection.ts lines 19-23,
235): a stable sort of the batch entries by index, ascending. -/
def sortAdds {T : Type} (items : List (ItemAdd T)) : List (ItemAdd T) :=
  List.insertionSort (fun a b => a.index ≤ b.index) items

/-- Embeds `items.sort(sortByIndexReverse)` (ObservableCollection.ts lines
11-13, 249): a stable sort of the batch entries by index, descending. -/
def sortRemoves {T : Type} (items : List (ItemRemove T)) : List (ItemRemove T) :=
  List.insertionSort (fun a b => b.index ≤ a.index) items

/-- Embeds `array.splice(i, 0, x)` on a JavaScript array: insert `x` at
position `i`, clamping `i` to the array's length (a past-the-end index
appends at the end, as `splice` does). -/
def spliceInsert {T : Type} (l : List T) (i : Nat) (x : T) : List T :=
  match i, l with
  | 0, l => x :: l
  | _ + 1, [] => [x]
  | i + 1, y :: l => y :: spliceInsert l i x

/-- Embeds `array.splice(i, 1)` on a JavaScript array: delete the element
at position `i`; a past-the-end index deletes nothing, as `splice` does. -/
def spliceRemove {T : Type} : List T → Nat → List T
  | [], _ => []
  | _ :: l, 0 => l
  | y :: l, i + 1 => y :: spliceRemove l i

/-- A primitive step performed by an `ObservableCollection` mutator: an
event emission (with its full payload) or a single splice. -/
inductive CollOp (T : Type) where
  | emitAdding (payload : List (ItemAdd T))
  | emitAdded (payload : List (ItemAdd T))
  | emitRemoving (payload : List (ItemRemove T))
  | emitRemoved (payload : List (ItemRemove T))
  | spliceIns (index : Nat) (item : T)
  | spliceRem (index : Nat)
deriving DecidableEq

/-- Runs the splices of an operation trace over the collection's backing
array; event emissions do not touch the array. -/
def runOps {T : Type} : List T → List (CollOp T) → List T
  | l, [] => l
  | l, .spliceIns i x :: rest => runOps (spliceInsert l i x) rest
  | l, .spliceRem i :: rest => runOps (spliceRemove l i) rest
  | l, .emitAdding _ :: rest => runOps l rest
  | l, .emitAdded _ :: rest => runOps l rest
  | l, .emitRemoving _ :: rest => runOps l rest
  | l, .emitRemoved _ :: rest => runOps l rest

/-- Embeds `ObservableCollection._add` (ObservableCollection.ts lines
231-244) as its operation trace: sort the batch ascending by index, emit
`adding`, splice each entry in low-to-high, emit `added`.  Both events
carry the (sorted) batch. -/
def addOps {T : Type} (items : List (ItemAdd T)) : List (CollOp T) :=
  CollOp.emitAdding (sortAdds items) ::
    ((sortAdds items).map (fun a => CollOp.spliceIns a.index a.item) ++
      [CollOp.emitAdded (sortAdds items)])

/-- Embeds `ObservableCollection._remove` (ObservableCollection.ts lines
246-258) as its operation trace: sort the batch descending by index, emit
`removing`, splice each entry out high-to-low, emit `removed`. -/
def removeOps {T : Type} (items : List (ItemRemove T)) : List (CollOp T) :=
  CollOp.emitRemoving (sortRemoves items) ::
    ((sortRemoves items).map (fun r => CollOp.spliceRem r.index) ++
      [CollOp.emitRemoved (sortRemoves items)])

/-- The effect of `_add` on the backing array (the splices of `addOps`). -/
def addBatch {T : Type} (l : List T) (items : List (ItemAdd T)) : List T :=
  runOps l (addOps items)

/-- The effect of `_remove` on the backing array (the splices of
`removeOps`). -/
def removeBatch {T : Type} (l : List T) (items : List (ItemRemove T)) : List T :=
  runOps l (removeOps items)

/-- The element actually deleted by each splice of `_remove`, in splice
order: before each `splice(index, 1)` of the (descending-sorted) batch,
record the element currently at `index`. -/
def removeLogAux {T : Type} : List T → List (ItemRemove T) → List (Option T)
  | _, [] => []
  | l, r :: rest => l.get? r.index :: removeLogAux (spliceRemove l r.index) rest

/-- The per-splice deletion log of `_remove` for a batch. -/
def removeLog {T : Type} (l : List T) (items : List (ItemRemove T)) : List (Option T) :=
  removeLogAux l (sortRemoves items)

/-- Errors raised by the embedded code, mirroring the repository's error
classes (`IndexOutOfRangeError`, `ArgumentError`, `NameCollisionError`,
`RfcError`, ...).  `generic` embeds a plain JavaScript `Error`. -/
inductive GaiaError where
  | indexOutOfRange (index : Int)
  | generic (msg : String)
  | argument (msg : String)
  | nameCollision (msg : String)
  | rfc (cause : String)
  | objectDoesNotExist (msg : String)
deriving DecidableEq

/-- Embeds `ObservableCollection.insert` (ObservableCollection.ts lines
130-138): an index outside `[0, length]` raises `IndexOutOfRangeError`
before anything happens; otherwise a one-entry batch goes through `_add`.
Returns the new backing array and the operation trace. -/
def ObservableCollection.insert {T : Type} (l : List T) (index : Int) (item : T) :
    Except GaiaError (List T × List (CollOp T)) :=
  if index < 0 || index > (l.length : Int) then
    .error (.indexOutOfRange index)
  else
    let change : List (ItemAdd T) := [⟨item, index.toNat⟩]
    .ok (addBatch l change, addOps change)

/-- Embeds `ObservableCollection.add` (ObservableCollection.ts lines
140-149): each argument is appended at `length + i`. -/
def ObservableCollection.add {T : Type} (l : List T) (args : List T) :
    List T × List (CollOp T) :=
  let change := (args.enum.map (fun p => ItemAdd.mk p.2 (l.length + p.1)))
  (addBatch l change, addOps change)

/-- Embeds `ObservableCollection.removeAt` (ObservableCollection.ts lines
195-206): an index outside `[0, length)` raises a plain
`Error("Index out of bouds when removing at index ...")` — note: not an
`IndexOutOfRangeError` — before anything happens; otherwise a one-entry
batch goes through `_remove`. -/
def ObservableCollection.removeAt {T : Type} [Inhabited T] (l : List T) (index : Int) :
    Except GaiaError (List T × List (CollOp T)) :=
  if index < 0 || index ≥ (l.length : Int) then
    .error (.generic ("Index out of bouds when removing at index " ++ toString index))
  else
    let item := l.getD index.toNat default
    let change : List (ItemRemove T) := [⟨item, index.toNat⟩]
    .ok (removeBatch l change, removeOps change)

/-- Embeds `array.indexOf(item)` (first occurrence, or -1 when absent);
the -1 case is modelled as `none`. -/
def jsIndexOf {T : Type} [DecidableEq T] : List T → T → Option Nat
  | [], _ => none
  | y :: l, x =>
    if y = x then some 0
    else (jsIndexOf l x).map (fun i => i + 1)

/-- The change list collected by `ObservableCollection.remove`
(ObservableCollection.ts lines 180-190): for each argument, its first
index in the backing array; arguments whose `indexOf` is -1 are skipped. -/
def removeChanges {T : Type} [DecidableEq T] (l : List T) (args : List T) :
    List (ItemRemove T) :=
  args.filterMap (fun item =>
    (jsIndexOf l item).map (fun i => ItemRemove.mk item i))

/-- Embeds `ObservableCollection.remove` (ObservableCollection.ts lines
179-193): the collected entries (possibly none) go through `_remove`
unconditionally. -/
def ObservableCollection.remove {T : Type} [DecidableEq T] (l : List T) (args : List T) :
    List T × List (CollOp T) :=
  (removeBatch l (removeChanges l args), removeOps (removeChanges l args))

/-- The cumulative effect of splicing in a list of add entries, in the
given order (the loop body of `_add`, lines 239-241). -/
def applyAdds {T : Type} (l : List T) (adds : List (ItemAdd T)) : List T :=
  adds.foldl (fun acc a => spliceInsert acc a.index a.item) l

/-- The cumulative effect of splicing out a list of remove entries, in the
given order (the loop body of `_remove`, lines 253-255). -/
def applyRemoves {T : Type} (l : List T) (rems : List (ItemRemove T)) : List T :=
  rems.foldl (fun acc r => spliceRemove acc r.index) l

/-- Validity of a (sorted) add batch against a collection of length `n`:
the k-th entry's target index is at most `n + k`, so each splice inserts
at its stated index rather than clamping to the end. -/
def indexesValidB {T : Type} : Nat → List (ItemAdd T) → Bool
  | _, [] => true
  | n, a :: rest => decide (a.index ≤ n) && indexesValidB (n + 1) rest

theorem spliceInsert_length {T : Type} :
    ∀ (l : List T) (i : Nat) (x : T), (spliceInsert l i x).length = l.length + 1
  | _, 0, _ => by simp [spliceInsert]
  | [], _ + 1, _ => rfl
  | y :: l, i + 1, x => by
    simp [spliceInsert, spliceInsert_length l i x]

theorem spliceInsert_get_self {T : Type} :
    ∀ (l : List T) (i : Nat) (x : T), i ≤ l.length →
      (spliceInsert l i x).get? i = some x
  | _, 0, _, _ => by simp [spliceInsert]
  | [], i + 1, x, h => absurd h (by simp)
  | y :: l, i + 1, x, h => by
    simpa [spliceInsert] using spliceInsert_get_self l i x (by simpa using h)

theorem spliceInsert_get_lt {T : Type} :
    ∀ (l : List T) (i j : Nat) (x : T), j < i → i ≤ l.length →
      (spliceInsert l i x).get? j = l.get? j
  | [], i + 1, _, x, _, hi => absurd hi (by simp)
  | y :: l, i + 1, 0, x, _, _ => rfl
  | y :: l, i + 1, j + 1, x, hj, hi => by
    simpa [spliceInsert] using
      spliceInsert_get_lt l i j x (by omega) (by simpa using hi)

theorem spliceRemove_get_lt {T : Type} :
    ∀ (l : List T) (i j : Nat), j < i →
      (spliceRemove l i).get? j = l.get? j
  | [], _, _, _ => rfl
  | y :: l, i + 1, 0, _ => rfl
  | y :: l, i + 1, j + 1, hj => by
    simpa [spliceRemove] using spliceRemove_get_lt l i j (by omega)

theorem spliceRemove_sublist {T : Type} :
    ∀ (l : List T) (i : Nat), List.Sublist (spliceRemove l i) l
  | [], _ => List.Sublist.refl _
  | _ :: _, 0 => List.sublist_cons_self _ _
  | y :: l, i + 1 => List.Sublist.cons₂ y (spliceRemove_sublist l i)

theorem spliceRemove_perm {T : Type} :
    ∀ (l : List T) (i : Nat) (x : T), l.get? i = some x →
      l.Perm (x :: spliceRemove l i)
  | [], i, x, h => absurd h (by simp)
  | y :: l, 0, x, h => by
    simp only [List.get?_cons_zero, Option.some.injEq] at h
    subst h
    exact List.Perm.refl _
  | y :: l, i + 1, x, h => by
    simp only [List.get?_cons_succ] at h
    have ih := spliceRemove_perm l i x h
    exact (ih.cons y).trans (List.Perm.swap x y _)

theorem runOps_append {T : Type} :
    ∀ (ops₁ ops₂ : List (CollOp T)) (l : List T),
      runOps l (ops₁ ++ ops₂) = runOps (runOps l ops₁) ops₂
  | [], _, _ => rfl
  | op :: rest, ops₂, l => by
    cases op <;> simpa [runOps] using runOps_append rest ops₂ _

theorem runOps_spliceIns_map {T : Type} :
    ∀ (adds : List (ItemAdd T)) (l : List T),
      runOps l (adds.map fun a => CollOp.spliceIns a.index a.item) = applyAdds l adds
  | [], _ => rfl
  | a :: rest, l => by
    simpa [runOps, applyAdds] using runOps_spliceIns_map rest (spliceInsert l a.index a.item)

theorem runOps_spliceRem_map {T : Type} :
    ∀ (rems : List (ItemRemove T)) (l : List T),
      runOps l (rems.map fun r => CollOp.spliceRem r.index) = applyRemoves l rems
  | [], _ => rfl
  | r :: rest, l => by
    simpa [runOps, applyRemoves] using runOps_spliceRem_map rest (spliceRemove l r.index)

theorem addBatch_eq_applyAdds {T : Type} (l : List T) (items : List (ItemAdd T)) :
    addBatch l items = applyAdds l (sortAdds items) := by
  simp [addBatch, addOps, runOps, runOps_append, runOps_spliceIns_map]

theorem removeBatch_eq_applyRemoves {T : Type} (l : List T) (items : List (ItemRemove T)) :
    removeBatch l items = applyRemoves l (sortRemoves items) := by
  simp [removeBatch, removeOps, runOps, runOps_append, runOps_spliceRem_map]

theorem indexesValidB_cons {T : Type} {n : Nat} {a : ItemAdd T} {rest : List (ItemAdd T)}
    (h : indexesValidB n (a :: rest) = true) :
    a.index ≤ n ∧ indexesValidB (n + 1) rest = true := by
  simpa [indexesValidB, Bool.and_eq_true, decide_eq_true_iff] using h

theorem applyAdds_get_of_gt {T : Type} :
    ∀ (adds : List (ItemAdd T)) (l : List T) (j : Nat),
      indexesValidB l.length adds = true → (∀ b ∈ adds, j < b.index) →
      (applyAdds l adds).get? j = l.get? j
  | [], _, _, _, _ => rfl
  | a :: rest, l, j, hv, hj => by
    obtain ⟨hva, hvrest⟩ := indexesValidB_cons hv
    have hstep : applyAdds l (a :: rest) = applyAdds (spliceInsert l a.index a.item) rest := rfl
    rw [hstep,
      applyAdds_get_of_gt rest (spliceInsert l a.index a.item) j
        (by simpa [spliceInsert_length] using hvrest)
        (fun b hb => hj b (List.mem_cons_of_mem a hb))]
    exact spliceInsert_get_lt l a.index j a.item (hj a (List.mem_cons_self _ _)) hva

theorem applyAdds_get {T : Type} :
    ∀ (adds : List (ItemAdd T)) (l : List T),
      adds.Pairwise (fun a b => a.index < b.index) →
      indexesValidB l.length adds = true →
      ∀ a ∈ adds, (applyAdds l adds).get? a.index = some a.item
  | [], _, _, _, a, ha => absurd ha (by simp)
  | a :: rest, l, hs, hv, b, hb => by
    obtain ⟨hva, hvrest⟩ := indexesValidB_cons hv
    have hvrest' : indexesValidB (spliceInsert l a.index a.item).length rest = true := by
      simpa [spliceInsert_length] using hvrest
    have hstep : applyAdds l (a :: rest) = applyAdds (spliceInsert l a.index a.item) rest := rfl
    rcases List.mem_cons.mp hb with rfl | hbr
    · rw [hstep,
        applyAdds_get_of_gt rest (spliceInsert l b.index b.item) b.index hvrest'
          (fun c hc => (List.pairwise_cons.mp hs).1 c hc)]
      exact spliceInsert_get_self l b.index b.item hva
    · rw [hstep]
      exact applyAdds_get rest (spliceInsert l a.index a.item)
        (List.pairwise_cons.mp hs).2 hvrest' b hbr

theorem removeLogAux_eq {T : Type} :
    ∀ (rems : List (ItemRemove T)) (l : List T),
      rems.Pairwise (fun a b => b.index < a.index) →
      (∀ r ∈ rems, l.get? r.index = some r.item) →
      removeLogAux l rems = rems.map (fun r => some r.item)
  | [], _, _, _ => rfl
  | r :: rest, l, hs, hv => by
    simp only [removeLogAux, List.map_cons]
    refine congrArg₂ (· :: ·) (hv r (List.mem_cons_self _ _)) ?_
    refine removeLogAux_eq rest (spliceRemove l r.index) (List.pairwise_cons.mp hs).2 ?_
    intro r' hr'
    rw [spliceRemove_get_lt l r.index r'.index ((List.pairwise_cons.mp hs).1 r' hr')]
    exact hv r' (List.mem_cons_of_mem r hr')

theorem applyRemoves_sublist {T : Type} :
    ∀ (rems : List (ItemRemove T)) (l : List T), List.Sublist (applyRemoves l rems) l
  | [], _ => List.Sublist.refl _
  | r :: rest, l => by
    have hstep : applyRemoves l (r :: rest) = applyRemoves (spliceRemove l r.index) rest := rfl
    rw [hstep]
    exact (applyRemoves_sublist rest _).trans (spliceRemove_sublist l r.index)

theorem applyRemoves_perm {T : Type} :
    ∀ (rems : List (ItemRemove T)) (l : List T),
      rems.Pairwise (fun a b => b.index < a.index) →
      (∀ r ∈ rems, l.get? r.index = some r.item) →
      l.Perm (applyRemoves l rems ++ rems.map (fun r => r.item))
  | [], l, _, _ => by simp [applyRemoves]
  | r :: rest, l, hs, hv => by
    have hstep : applyRemoves l (r :: rest) = applyRemoves (spliceRemove l r.index) rest := rfl
    have hv' : ∀ r' ∈ rest, (spliceRemove l r.index).get? r'.index = some r'.item := by
      intro r' hr'
      rw [spliceRemove_get_lt l r.index r'.index ((List.pairwise_cons.mp hs).1 r' hr')]
      exact hv r' (List.mem_cons_of_mem r hr')
    have ih := applyRemoves_perm rest (spliceRemove l r.index) (List.pairwise_cons.mp hs).2 hv'
    have h1 : l.Perm (r.item :: spliceRemove l r.index) :=
      spliceRemove_perm l r.index r.item (hv r (List.mem_cons_self _ _))
    exact (h1.trans (ih.cons r.item)).trans List.perm_middle.symm

theorem sortAdds_perm {T : Type} (items : List (ItemAdd T)) : (sortAdds items).Perm items :=
  List.perm_insertionSort _ items

theorem sortAdds_sorted {T : Type} (items : List (ItemAdd T)) :
    (sortAdds items).Pairwise (fun a b => a.index ≤ b.index) := by
  haveI : IsTotal (ItemAdd T) (fun a b => a.index ≤ b.index) := ⟨fun a b => Nat.le_total _ _⟩
  haveI : IsTrans (ItemAdd T) (fun a b => a.index ≤ b.index) :=
    ⟨fun _ _ _ h₁ h₂ => Nat.le_trans h₁ h₂⟩
  exact List.sorted_insertionSort _ items

theorem sortRemoves_perm {T : Type} (items : List (ItemRemove T)) :
    (sortRemoves items).Perm items :=
  List.perm_insertionSort _ items

theorem sortRemoves_sorted {T : Type} (items : List (ItemRemove T)) :
    (sortRemoves items).Pairwise (fun a b => b.index ≤ a.index) := by
  haveI : IsTotal (ItemRemove T) (fun a b => b.index ≤ a.index) := ⟨fun a b => Nat.le_total _ _⟩
  haveI : IsTrans (ItemRemove T) (fun a b => b.index ≤ a.index) :=
    ⟨fun _ _ _ h₁ h₂ => Nat.le_trans h₂ h₁⟩
  exact List.sorted_insertionSort _ items

theorem sortAdds_strict {T : Type} (items : List (ItemAdd T))
    (h : (items.map ItemAdd.index).Nodup) :
    (sortAdds items).Pairwise (fun a b => a.index < b.index) := by
  have hnd : ((sortAdds items).map ItemAdd.index).Nodup :=
    (((sortAdds_perm items).map ItemAdd.index).nodup_iff).mpr h
  have hne : (sortAdds items).Pairwise (fun a b => a.index ≠ b.index) :=
    List.pairwise_map.mp hnd
  exact ((sortAdds_sorted items).and hne).imp
    (fun hab => Nat.lt_of_le_of_ne hab.1 hab.2)

theorem sortRemoves_strict {T : Type} (items : List (ItemRemove T))
    (h : (items.map ItemRemove.index).Nodup) :
    (sortRemoves items).Pairwise (fun a b => b.index < a.index) := by
  have hnd : ((sortRemoves items).map ItemRemove.index).Nodup :=
    (((sortRemoves_perm items).map ItemRemove.index).nodup_iff).mpr h
  have hne : (sortRemoves items).Pairwise (fun a b => a.index ≠ b.index) :=
    List.pairwise_map.mp hnd
  exact ((sortRemoves_sorted items).and hne).imp
    (fun hab => Nat.lt_of_le_of_ne hab.1 (Ne.symm hab.2))

/-- Claim C1: a batch of additions is sorted by target index ascending and
spliced low-to-high, so each item ends up at its stated index; a batch of
removals is sorted by index descending and spliced high-to-low, so each
stated index still refers to its intended item when it is removed (and the
net effect deletes exactly the stated occurrences).  The add batch must
carry pairwise-distinct indices that are valid splice targets, and the
remove batch pairwise-distinct indices that each hold the stated item. -/
theorem batch_mutation_splice_ordering {T : Type} [DecidableEq T] (l : List T)
    (adds : List (ItemAdd T)) (rems : List (ItemRemove T))
    (haddNodup : (adds.map ItemAdd.index).Nodup)
    (haddValid : indexesValidB l.length (sortAdds adds) = true)
    (hremNodup : (rems.map ItemRemove.index).Nodup)
    (hremValid : ∀ r ∈ rems, l.get? r.index = some r.item) :
    ((sortAdds adds).Pairwise fun a b => a.index ≤ b.index) ∧
    (sortAdds adds).Perm adds ∧
    addBatch l adds = applyAdds l (sortAdds adds) ∧
    (∀ a ∈ adds, (addBatch l adds).get? a.index = some a.item) ∧
    ((sortRemoves rems).Pairwise fun a b => b.index ≤ a.index) ∧
    (sortRemoves rems).Perm rems ∧
    removeBatch l rems = applyRemoves l (sortRemoves rems) ∧
    removeLog l rems = (sortRemoves rems).map (fun r => some r.item) ∧
    List.Sublist (removeBatch l rems) l ∧
    l.Perm (removeBatch l rems ++ rems.map (fun r => r.item)) := by
  have haddStrict := sortAdds_strict adds haddNodup
  have hremStrict := sortRemoves_strict rems hremNodup
  have hremValidSorted : ∀ r ∈ sortRemoves rems, l.get? r.index = some r.item :=
    fun r hr => hremValid r ((sortRemoves_perm rems).mem_iff.mp hr)
  refine ⟨sortAdds_sorted adds, sortAdds_perm adds, addBatch_eq_applyAdds l adds, ?_,
    sortRemoves_sorted rems, sortRemoves_perm rems, removeBatch_eq_applyRemoves l rems, ?_, ?_, ?_⟩
  · intro a ha
    rw [addBatch_eq_applyAdds]
    exact applyAdds_get (sortAdds adds) l haddStrict haddValid a
      ((sortAdds_perm adds).mem_iff.mpr ha)
  · exact removeLogAux_eq (sortRemoves rems) l hremStrict hremValidSorted
  · rw [removeBatch_eq_applyRemoves]
    exact applyRemoves_sublist _ _
  · rw [removeBatch_eq_applyRemoves]
    have h := applyRemoves_perm (sortRemoves rems) l hremStrict hremValidSorted
    exact h.trans ((List.Perm.refl _).append ((sortRemoves_perm rems).map _))

/-- Witness for C1 at a concrete batch. -/
theorem batch_mutation_splice_ordering_witness :
    (∀ a ∈ [ItemAdd.mk 99 3, ItemAdd.mk 77 0],
      (addBatch [10, 20, 30] [ItemAdd.mk 99 3, ItemAdd.mk 77 0]).get? a.index = some a.item) ∧
    List.Perm [10, 20, 30]
      (removeBatch [10, 20, 30] [ItemRemove.mk 30 2, ItemRemove.mk 10 0] ++ [30, 10]) := by
  have h := batch_mutation_splice_ordering [10, 20, 30]
    [ItemAdd.mk 99 3, ItemAdd.mk 77 0] [ItemRemove.mk 30 2, ItemRemove.mk 10 0]
    (by decide) (by decide) (by decide) (by decide)
  exact ⟨h.2.2.2.1, h.2.2.2.2.2.2.2.2.2⟩

theorem jsIndexOf_get {T : Type} [DecidableEq T] :
    ∀ (l : List T) (x : T) (i : Nat), jsIndexOf l x = some i → l.get? i = some x
  | [], x, i, h => by simp [jsIndexOf] at h
  | y :: l, x, i, h => by
    by_cases hyx : y = x
    · subst hyx
      simp [jsIndexOf] at h
      subst h
      rfl
    · simp [jsIndexOf, hyx] at h
      obtain ⟨j, hj, rfl⟩ := h
      simpa using jsIndexOf_get l x j hj

theorem jsIndexOf_eq_none {T : Type} [DecidableEq T] :
    ∀ (l : List T) (x : T), jsIndexOf l x = none ↔ x ∉ l
  | [], x => by simp [jsIndexOf]
  | y :: l, x => by
    by_cases hyx : y = x
    · subst hyx
      simp [jsIndexOf]
    · simp [jsIndexOf, hyx, Option.map_eq_none, jsIndexOf_eq_none l x, Ne.symm hyx]

theorem removeChanges_mem {T : Type} [DecidableEq T] {l args : List T} {c : ItemRemove T}
    (h : c ∈ removeChanges l args) :
    c.item ∈ args ∧ jsIndexOf l c.item = some c.index := by
  obtain ⟨a, ha, hc⟩ := List.mem_filterMap.mp h
  obtain ⟨i, hi, hc'⟩ := Option.map_eq_some.mp hc
  cases hc'
  exact ⟨ha, hi⟩

theorem removeChanges_valid {T : Type} [DecidableEq T] {l args : List T} :
    ∀ c ∈ removeChanges l args, l.get? c.index = some c.item :=
  fun c hc => jsIndexOf_get l c.item c.index (removeChanges_mem hc).2

theorem removeChanges_cons {T : Type} [DecidableEq T] (l : List T) (a : T) (args : List T) :
    removeChanges l (a :: args) =
      match jsIndexOf l a with
      | none => removeChanges l args
      | some i => ItemRemove.mk a i :: removeChanges l args := by
  simp only [removeChanges, List.filterMap_cons]
  cases jsIndexOf l a <;> simp

theorem removeChanges_index_nodup {T : Type} [DecidableEq T] (l : List T) :
    ∀ (args : List T), args.Nodup →
      ((removeChanges l args).map ItemRemove.index).Nodup
  | [], _ => by simp [removeChanges]
  | a :: args, h => by
    obtain ⟨hnotmem, hnd⟩ := List.nodup_cons.mp h
    rw [removeChanges_cons]
    cases hia : jsIndexOf l a with
    | none => exact removeChanges_index_nodup l args hnd
    | some i =>
      simp only [List.map_cons, List.nodup_cons]
      refine ⟨?_, removeChanges_index_nodup l args hnd⟩
      intro hmem
      obtain ⟨c, hc, hci⟩ := List.mem_map.mp hmem
      have h1 := jsIndexOf_get l a i hia
      have h2 := removeChanges_valid c hc
      rw [hci] at h2
      rw [h1] at h2
      cases h2
      exact hnotmem (removeChanges_mem hc).1

theorem removeChanges_items {T : Type} [DecidableEq T] (l : List T) :
    ∀ (args : List T),
      (removeChanges l args).map (fun c => c.item) =
        args.filter (fun a => decide (a ∈ l))
  | [] => by simp [removeChanges]
  | a :: args => by
    rw [removeChanges_cons]
    cases hia : jsIndexOf l a with
    | none =>
      have : a ∉ l := (jsIndexOf_eq_none l a).mp hia
      simp [List.filter_cons, this, removeChanges_items l args]
    | some i =>
      have : a ∈ l := by
        by_contra hmem
        rw [(jsIndexOf_eq_none l a).mpr hmem] at hia
        cases hia
      simp [List.filter_cons, this, removeChanges_items l args]

/-- Claim C8: for every batch add (and batch remove), the `adding`
(`removing`) event is emitted strictly before any splice and the `added`
(`removed`) event strictly after all splices, with nothing but the
splices in between, and both events carry the full list of affected
(item, index) pairs of the batch (the batch itself, in sorted order);
running the bracketed splices is exactly the batch's effect. -/
theorem batch_events_bracket_splices {T : Type} (l : List T)
    (adds : List (ItemAdd T)) (rems : List (ItemRemove T)) :
    (∃ p, p.Perm adds ∧
      addOps adds = CollOp.emitAdding p ::
        (p.map (fun a => CollOp.spliceIns a.index a.item) ++ [CollOp.emitAdded p]) ∧
      runOps l (addOps adds) = addBatch l adds) ∧
    (∃ q, q.Perm rems ∧
      removeOps rems = CollOp.emitRemoving q ::
        (q.map (fun r => CollOp.spliceRem r.index) ++ [CollOp.emitRemoved q]) ∧
      runOps l (removeOps rems) = removeBatch l rems) :=
  ⟨⟨sortAdds adds, sortAdds_perm adds, rfl, rfl⟩,
   ⟨sortRemoves rems, sortRemoves_perm rems, rfl, rfl⟩⟩

/-- Claim C6 (code bug in `removeAt`): `insert` raises
`IndexOutOfRangeError` on an out-of-range index, but `removeAt` raises a
plain `Error` (with an "Index out of bouds ..." message), not an
`IndexOutOfRangeError`, contrary to the spec's error taxonomy. -/
theorem removeAt_raises_generic_error :
    ObservableCollection.insert ([] : List Nat) 1 5 =
      Except.error (GaiaError.indexOutOfRange 1) ∧
    ObservableCollection.insert ([] : List Nat) (-1) 5 =
      Except.error (GaiaError.indexOutOfRange (-1)) ∧
    ObservableCollection.removeAt ([] : List Nat) 0 =
      Except.error (GaiaError.generic "Index out of bouds when removing at index 0") ∧
    (∀ i : Int, ObservableCollection.removeAt ([] : List Nat) 0 ≠
      Except.error (GaiaError.indexOutOfRange i)) := by
  refine ⟨rfl, rfl, rfl, ?_⟩
  intro i h
  rw [show ObservableCollection.removeAt ([] : List Nat) 0 =
    Except.error (GaiaError.generic "Index out of bouds when removing at index 0")
    from rfl] at h
  simp at h

/-- Counterexample to claim C10 as stated: `remove(5, 5)` on `[5, 7]`
deletes 7 as well.  The duplicated argument produces two identical
(item, 0) entries, and the second `splice(0, 1)` deletes the element that
shifted into index 0 — so an element that is not among the arguments is
removed. -/
theorem remove_duplicate_args_counterexample :
    (ObservableCollection.remove [5, 7] [5, 5]).1 = ([] : List Nat) ∧
    (7 ∈ [5, 7] ∧ 7 ∉ [5, 5] ∧ 7 ∉ (ObservableCollection.remove [5, 7] [5, 5]).1) := by
  decide

/-- Claim C10 (amended): for pairwise-distinct arguments,
`remove(...args)` never fails; it removes exactly the first occurrence of
each argument that is present (skipping absent arguments), and when
nothing matches — in particular for an empty argument list — the
collection is unchanged but `removing`/`removed` are still emitted with an
empty change list. -/
theorem remove_skips_absent_arguments {T : Type} [DecidableEq T] (l args : List T)
    (hnd : args.Nodup) :
    (ObservableCollection.remove l args).2 = removeOps (removeChanges l args) ∧
    (removeChanges l args).map (fun c => c.item) = args.filter (fun a => decide (a ∈ l)) ∧
    (∀ c ∈ removeChanges l args, l.get? c.index = some c.item) ∧
    List.Sublist (ObservableCollection.remove l args).1 l ∧
    l.Perm ((ObservableCollection.remove l args).1 ++
      (removeChanges l args).map (fun c => c.item)) ∧
    (removeChanges l args = [] →
      (ObservableCollection.remove l args).1 = l ∧
      (ObservableCollection.remove l args).2 =
        [CollOp.emitRemoving [], CollOp.emitRemoved []]) := by
  have hnodup := removeChanges_index_nodup l args hnd
  have hstrict := sortRemoves_strict (removeChanges l args) hnodup
  have hvalidSorted : ∀ c ∈ sortRemoves (removeChanges l args), l.get? c.index = some c.item :=
    fun c hc => removeChanges_valid c ((sortRemoves_perm _).mem_iff.mp hc)
  refine ⟨rfl, removeChanges_items l args, removeChanges_valid, ?_, ?_, ?_⟩
  · show List.Sublist (removeBatch l (removeChanges l args)) l
    rw [removeBatch_eq_applyRemoves]
    exact applyRemoves_sublist _ _
  · show l.Perm (removeBatch l (removeChanges l args) ++ _)
    rw [removeBatch_eq_applyRemoves]
    exact (applyRemoves_perm _ l hstrict hvalidSorted).trans
      ((List.Perm.refl _).append ((sortRemoves_perm _).map _))
  · intro hempty
    show removeBatch l (removeChanges l args) = l ∧
      removeOps (removeChanges l args) = _
    rw [hempty]
    exact ⟨rfl, rfl⟩

/-- Witness for the amended C10 at a concrete input: removing `{2, 9}`
from `[1, 2, 3]` leaves a sublist, and `[1, 2, 3]` is a permutation of
the result plus the arguments that were present. -/
theorem remove_skips_absent_arguments_witness :
    List.Sublist (ObservableCollection.remove [1, 2, 3] [2, 9]).1 [1, 2, 3] ∧
    List.Perm [1, 2, 3] ((ObservableCollection.remove [1, 2, 3] [2, 9]).1 ++
      (removeChanges [1, 2, 3] [2, 9]).map (fun c => c.item)) := by
  have h := remove_skips_absent_arguments [1, 2, 3] [2, 9] (by decide)
  exact ⟨h.2.2.2.1, h.2.2.2.2.1⟩

/- ===================================================================
   Field / Member value inheritance (Field source; src/core/values)
   =================================================================== -/

/-- The concrete Value implementations of the repository: `BoolValue`
(tag "type-bool", src/core/values/Bool.ts) and `UIntValue` (tag
"type-uint", src/core/values/UInt.ts).  A `SimpleValue` is its singleton
type tag plus its payload. -/
inductive GValue where
  | bool (b : Bool)
  | uint (n : Nat)
deriving DecidableEq

/-- The `name` of a value's type (`BoolType.name` / `UIntType.name`). -/
def GValue.typeName : GValue → String
  | .bool _ => "type-bool"
  | .uint _ => "type-uint"

/-- Embeds `SimpleValue.equals` (src/core/values/SimpleValue):
`this.type.equals(other.type) && this.value === other.value`. -/
def GValue.equals (a b : GValue) : Bool :=
  (a.typeName == b.typeName) &&
    (match a, b with
     | .bool x, .bool y => x == y
     | .uint x, .uint y => x == y
     | _, _ => false)

theorem GValue.equals_refl (v : GValue) : GValue.equals v v = true := by
  cases v <;> simp [GValue.equals, GValue.typeName]

/-- Modelled from the spec: `IValue.applyChangeSet` — the incremental
change-application primitive of the Value contract (spec section 6),
whose implementation is not part of this snapshot.  Applying the
change-set of a member-value change `old -> v` onto a value adopts `v`
(the change-set carries the new value). -/
def GValue.applyChangeSet (_self v : GValue) : GValue := v

/-- The state of a `Field` and its paired Member that is relevant to
value inheritance: the Member's current value (`Member._value`), the
Field's own cloned value (`Field._value`) and `Field._isInheriting`. -/
structure FieldState where
  memberValue : GValue
  fieldValue : GValue
  isInheriting : Bool
deriving DecidableEq

/-- Events emitted by a Field (`Events.field.*`). -/
inductive FieldEvent where
  | resetStart
  | resetEnd
  | inheritedChanging
  | inheritedChanged
deriving DecidableEq

/-- Embeds the `Field` constructor (Field source lines 7-23): the new
Field clones its Member's current value (`member.value.clone()`) and
starts with `_isInheriting = true`. -/
def Field.create (v : GValue) : FieldState :=
  ⟨v, v, true⟩

/-- Embeds `Field._setIsInheriting` (Field source lines 89-101): a no-op
when the flag is unchanged; otherwise `inheritedChanging`, the flag
write, then `inheritedChanged`. -/
def Field.setIsInheriting (st : FieldState) (b : Bool) : FieldState × List FieldEvent :=
  if st.isInheriting == b then (st, [])
  else ({st with isInheriting := b},
    [FieldEvent.inheritedChanging, FieldEvent.inheritedChanged])

/-- Embeds `Field._onValueChanged` (Field source lines 111-117): after
the Field's value changed, inheritance is dropped when the value no
longer equals the Member's (`!this.member.value.equals(this.value)`). -/
def Field.onValueChanged (st : FieldState) : FieldState :=
  if GValue.equals st.memberValue st.fieldValue then st
  else (Field.setIsInheriting st false).1

/-- A direct `field.value.set(v)`: `SimpleValue.update` writes the
payload and notifies, reaching `Field._onValueChanged`. -/
def Field.directSet (st : FieldState) (v : GValue) : FieldState :=
  Field.onValueChanged {st with fieldValue := v}

/-- Embeds a `member.value.set(v)` as observed by the Field:
the Member's value is written, `Events.member.valueChanged` reaches
`Field._onMemberValueChanged` (Field source lines 131-137); if the Field
is inheriting, `_onInheritedValueChanged` applies the change-set to the
Field's own value (line 140) and `_onValueChanged` re-validates. -/
def Field.onMemberSet (st : FieldState) (v : GValue) : FieldState :=
  let st1 := {st with memberValue := v}
  if st1.isInheriting then
    Field.onValueChanged
      {st1 with fieldValue := GValue.applyChangeSet st1.fieldValue v}
  else st1

/-- Embeds `Field.reset` / `Field._onReset` (Field source lines 85-87 and
124-129): emit `resetStart`, re-enable inheritance through
`_setIsInheriting(true)`, emit `resetEnd`.  The Field's value is not
touched ("Changing the value is done by implementers"). -/
def Field.reset (st : FieldState) : FieldState × List FieldEvent :=
  let p := Field.setIsInheriting st true
  (p.1, FieldEvent.resetStart :: (p.2 ++ [FieldEvent.resetEnd]))

/-- Claim C3: a Field created from a Member with value V0 starts
inheriting with a value equal to V0; a Member change to V1 while
inheriting updates the Field's value to V1 and keeps inheritance; a
direct Field set to V2 ≠ member value turns inheritance off; and a
subsequent Member change to V3 leaves the Field's value untouched. -/
theorem field_value_inheritance (v0 v1 v2 v3 : GValue)
    (hdiv : GValue.equals v1 v2 = false) :
    (Field.create v0).isInheriting = true ∧
    GValue.equals (Field.create v0).fieldValue v0 = true ∧
    (Field.onMemberSet (Field.create v0) v1).isInheriting = true ∧
    GValue.equals (Field.onMemberSet (Field.create v0) v1).fieldValue v1 = true ∧
    (Field.directSet (Field.onMemberSet (Field.create v0) v1) v2).isInheriting = false ∧
    (Field.onMemberSet
        (Field.directSet (Field.onMemberSet (Field.create v0) v1) v2) v3).fieldValue =
      (Field.directSet (Field.onMemberSet (Field.create v0) v1) v2).fieldValue := by
  have h1 : Field.onMemberSet (Field.create v0) v1 = ⟨v1, v1, true⟩ := by
    simp [Field.create, Field.onMemberSet, Field.onValueChanged,
      GValue.applyChangeSet, GValue.equals_refl]
  have h2 : Field.directSet (⟨v1, v1, true⟩ : FieldState) v2 = ⟨v1, v2, false⟩ := by
    simp [Field.directSet, Field.onValueChanged, Field.setIsInheriting, hdiv]
  refine ⟨rfl, GValue.equals_refl v0, ?_, ?_, ?_, ?_⟩
  · rw [h1]
  · rw [h1]; exact GValue.equals_refl v1
  · rw [h1, h2]
  · rw [h1, h2]
    simp [Field.onMemberSet]

/-- Witness for C3 at concrete UInt values 0, 1, 2, 3. -/
theorem field_value_inheritance_witness :
    (Field.directSet (Field.onMemberSet (Field.create (GValue.uint 0)) (GValue.uint 1))
      (GValue.uint 2)).isInheriting = false ∧
    (Field.onMemberSet
        (Field.directSet (Field.onMemberSet (Field.create (GValue.uint 0)) (GValue.uint 1))
          (GValue.uint 2)) (GValue.uint 3)).fieldValue =
      (Field.directSet (Field.onMemberSet (Field.create (GValue.uint 0)) (GValue.uint 1))
        (GValue.uint 2)).fieldValue := by
  have h := field_value_inheritance (GValue.uint 0) (GValue.uint 1) (GValue.uint 2)
    (GValue.uint 3) (by decide)
  exact ⟨h.2.2.2.2.1, h.2.2.2.2.2⟩

/-- Claim C9: `reset()` sets `isInheriting` back to true, emits
`resetStart` before and `resetEnd` after the flag change, and leaves both
the Field's value and the Member's value untouched: it never re-applies
the Member's current value. -/
theorem field_reset_keeps_value (st : FieldState) :
    Field.reset st =
      (⟨st.memberValue, st.fieldValue, true⟩,
        if st.isInheriting then [FieldEvent.resetStart, FieldEvent.resetEnd]
        else [FieldEvent.resetStart, FieldEvent.inheritedChanging,
          FieldEvent.inheritedChanged, FieldEvent.resetEnd]) := by
  cases st with
  | mk m f inh => cases inh <;> simp [Field.reset, Field.setIsInheriting]

/- ===================================================================
   Orchestrator (part: createNamespace / createModel / createInstance /
   createMembers / move / deleteMembers)
   =================================================================== -/

/-- The local collections owned by a parent Namespace and a Model as
seen by the Orchestrator create operations (`parent.children`,
`parent.models`, `parent.instances`, `model.members`), plus the UID
registry (`uidWarden`). -/
structure OrchState where
  children : List String
  models : List String
  instances : List String
  members : List String
  registry : List (String × String)
deriving DecidableEq

/-- Modelled from the spec: the verdict of the external resolver for a
submitted RFC action.  The RFC pipeline (`RequestForChangeSource`, not
part of this snapshot) runs the registered fulfill callback only when the
resolver accepts, and runs the reject callback — which throws an
`RfcError` wrapping the cause — when it declines (spec section 4.4). -/
inductive RfcOutcome where
  | accepted
  | rejected (err : String)
deriving DecidableEq

/-- Embeds `Orchestrator.createNamespace` (part_002 lines 130-152): the
Namespace is constructed, an append index `parent.children.length` is
chosen, and the create action is committed.  Only the fulfill callback
registers the id and inserts into the parent's collection (via
`composer.add`, modelled from the spec as the insertion at the chosen
index); on rejection an `RfcError` is raised and the state is returned
as it was. -/
def Orchestrator.createNamespace (st : OrchState) (name id : String)
    (resolver : RfcOutcome) : Except GaiaError String × OrchState :=
  let index := st.children.length
  match resolver with
  | .accepted =>
    (.ok name,
      { st with
          children := spliceInsert st.children index name,
          registry := (id, name) :: st.registry })
  | .rejected err => (.error (.rfc err), st)

/-- Embeds `Orchestrator.createModel` (part_002 lines 154-176), with the
same fulfill/reject structure as `createNamespace`. -/
def Orchestrator.createModel (st : OrchState) (name id : String)
    (resolver : RfcOutcome) : Except GaiaError String × OrchState :=
  let index := st.models.length
  match resolver with
  | .accepted =>
    (.ok name,
      { st with
          models := spliceInsert st.models index name,
          registry := (id, name) :: st.registry })
  | .rejected err => (.error (.rfc err), st)

/-- Embeds `Orchestrator.createInstance` (part_002 lines 178-200), with
the same fulfill/reject structure as `createNamespace`. -/
def Orchestrator.createInstance (st : OrchState) (name id : String)
    (resolver : RfcOutcome) : Except GaiaError String × OrchState :=
  let index := st.instances.length
  match resolver with
  | .accepted =>
    (.ok name,
      { st with
          instances := spliceInsert st.instances index name,
          registry := (id, name) :: st.registry })
  | .rejected err => (.error (.rfc err), st)

/-- Embeds `Orchestrator.createMembers` (part_002 lines 202-262): the
Members are constructed (without touching the Model), the batched create
actions are committed as one `BatchedActions`; only the fulfill callback
adds all Members to `model.members` in one batch and registers their
ids; on rejection an `RfcError` is raised and the state is returned as
it was. -/
def Orchestrator.createMembers (st : OrchState) (names ids : List String)
    (resolver : RfcOutcome) : Except GaiaError (List String) × OrchState :=
  match resolver with
  | .accepted =>
    (.ok names,
      { st with
          members := st.members ++ names,
          registry := ids.zip names ++ st.registry })
  | .rejected err => (.error (.rfc err), st)

/-- Modelled from the spec: the commit phase of the RFC pipeline,
`rfc.create(action).fulfill(f)[.reject(r)].commit()`
(`RequestForChangeSource`, not part of this snapshot; spec sections 4.4
and 7).  The fulfill callback is the only place local state is mutated,
and it runs only when the external resolver accepts the action.  A
resolver rejection surfaces to the caller as an `RfcError` — thrown by
the registered reject callback where the operation installs one (the
create operations of part_002) and by the pipeline's rejection path for
the operations that install none (spec section 7: "resolver rejections
surface as RfcError and guarantee zero local mutation occurred") — and
the state is returned exactly as it was. -/
def rfcCommit {S R : Type} (st : S) (resolver : RfcOutcome)
    (fulfill : S → R × S) : Except GaiaError R × S :=
  match resolver with
  | .accepted => (Except.ok (fulfill st).1, (fulfill st).2)
  | .rejected err => (.error (.rfc err), st)

/-- The kind of a QualifiedObject (`QualifiedObjectType`,
src/core/utils/Types). -/
inductive QKind where
  | Namespace
  | Model
  | Instance
deriving DecidableEq

/-- The observations `Orchestrator.move` makes about its arguments
(part_002 lines 443-499): whether an object is the project root, its
parent, name and kind, whether a Namespace exists in the project
(`project.get`) and whether the destination collection of a given kind
already holds a name (`Switch.case` over
`to.children` / `to.models` / `to.instances`). -/
structure MoveEnv (A : Type) where
  isRoot : A → Bool
  parentOf : A → Option A
  nameOf : A → String
  kindOf : A → QKind
  namespaceExists : A → Bool
  destContains : A → QKind → String → Bool

/-- The result of `move`: a raised error, a no-op resolution returning
the source, or a submitted move action (the only path that performs an
RFC round trip). -/
inductive MoveResult (A : Type) where
  | error (e : GaiaError)
  | noOp (source : A)
  | submitted (source : A) (dest : A)

/-- Whether the outcome submitted an RFC action. -/
def MoveResult.submitsRfc {A : Type} : MoveResult A → Bool
  | .submitted _ _ => true
  | _ => false

/-- Embeds `Orchestrator.move` (part_002 lines 443-499).  The checks run
in source order: root check, parent check, no-op on same parent,
existence of the destination Namespace, then the name-collision check
against the destination collection matching the source's kind; only
after all of them is the move action submitted.  (`source == null`
cannot arise here: the argument is always present.  The message of the
destination-existence error is paraphrased without punctuation.) -/
def Orchestrator.move {A : Type} [DecidableEq A] (env : MoveEnv A) (source dest : A) :
    MoveResult A :=
  if env.isRoot source then
    .error (.argument "Cannot move the Root namespace")
  else
    match env.parentOf source with
    | none =>
      .error (.argument
        "The source does not belong to any Namespace. Ensure that it exists in the project.")
    | some p =>
      if p = dest then
        .noOp source
      else if !env.namespaceExists dest then
        .error (.argument "The to Namespace provided to move() does not exist in this project")
      else if env.destContains dest (env.kindOf source) (env.nameOf source) then
        .error (.nameCollision
          "A QualifiedObject with that name already exists in the target location")
      else
        .submitted source dest

/-- Claim C5: `move` fails fast with an `ArgumentError` (submitting no
RFC action) when the source is the root or has no parent; resolves as a
no-op with the source (submitting no RFC action) when the destination
equals the current parent; and fails with `NameCollisionError` when the
destination's collection of the source's kind already holds the source's
name.  (The data-model invariant that the root has no parent is taken as
a hypothesis.) -/
theorem move_precondition_checks {A : Type} [DecidableEq A] (env : MoveEnv A)
    (source dest : A) (hroot : env.isRoot source = true → env.parentOf source = none) :
    (env.isRoot source = true →
      Orchestrator.move env source dest =
        MoveResult.error (GaiaError.argument "Cannot move the Root namespace") ∧
      (Orchestrator.move env source dest).submitsRfc = false) ∧
    (env.isRoot source = false → env.parentOf source = none →
      Orchestrator.move env source dest =
        MoveResult.error (GaiaError.argument
          "The source does not belong to any Namespace. Ensure that it exists in the project.") ∧
      (Orchestrator.move env source dest).submitsRfc = false) ∧
    (env.parentOf source = some dest →
      Orchestrator.move env source dest = MoveResult.noOp source ∧
      (Orchestrator.move env source dest).submitsRfc = false) ∧
    (∀ p, env.parentOf source = some p → p ≠ dest → env.namespaceExists dest = true →
      env.destContains dest (env.kindOf source) (env.nameOf source) = true →
      Orchestrator.move env source dest =
        MoveResult.error (GaiaError.nameCollision
          "A QualifiedObject with that name already exists in the target location")) := by
  refine ⟨?_, ?_, ?_, ?_⟩
  · intro h
    simp [Orchestrator.move, h, MoveResult.submitsRfc]
  · intro h hp
    simp [Orchestrator.move, h, hp, MoveResult.submitsRfc]
  · intro hp
    have h : env.isRoot source = false := by
      cases hr : env.isRoot source
      · rfl
      · rw [hroot hr] at hp; cases hp
    simp [Orchestrator.move, h, hp, MoveResult.submitsRfc]
  · intro p hp hne hex hcol
    have h : env.isRoot source = false := by
      cases hr : env.isRoot source
      · rfl
      · rw [hroot hr] at hp; cases hp
    simp [Orchestrator.move, h, hp, hne, hex, hcol]

/-- A concrete environment for exercising `move`: object 0 is the root,
object 1 is a Namespace named "A" whose parent is 0, object 2 has no
parent, and destination 3 already contains the name "A". -/
def moveEnvExample : MoveEnv Nat where
  isRoot := fun n => n == 0
  parentOf := fun n => if n == 1 then some 0 else none
  nameOf := fun _ => "A"
  kindOf := fun _ => QKind.Namespace
  namespaceExists := fun _ => true
  destContains := fun n _ _ => n == 3

/-- Witness for C5: each scenario of the claim at a concrete input. -/
theorem move_precondition_checks_witness :
    Orchestrator.move moveEnvExample 0 5 =
      MoveResult.error (GaiaError.argument "Cannot move the Root namespace") ∧
    Orchestrator.move moveEnvExample 2 5 =
      MoveResult.error (GaiaError.argument
        "The source does not belong to any Namespace. Ensure that it exists in the project.") ∧
    Orchestrator.move moveEnvExample 1 0 = MoveResult.noOp 1 ∧
    (Orchestrator.move moveEnvExample 1 0).submitsRfc = false ∧
    Orchestrator.move moveEnvExample 1 3 =
      MoveResult.error (GaiaError.nameCollision
        "A QualifiedObject with that name already exists in the target location") := by
  have h0 := move_precondition_checks moveEnvExample 0 5 (by decide)
  have h2 := move_precondition_checks moveEnvExample 2 5 (by decide)
  have h1 := move_precondition_checks moveEnvExample 1 0 (by decide)
  have h3 := move_precondition_checks moveEnvExample 1 3 (by decide)
  refine ⟨(h0.1 (by decide)).1, (h2.2.1 (by decide) (by decide)).1,
    (h1.2.2.1 (by decide)).1, (h1.2.2.1 (by decide)).2,
    h3.2.2.2 0 (by decide) (by decide) (by decide) (by decide)⟩

/-- Embeds the JavaScript `in` operator applied to an array of strings:
`s in arr` is true iff `s` is a property key of the array object — an
array index "0" .. "length-1" or "length".  (Keys inherited from
`Array.prototype`, such as "push", also answer true; they are omitted
here and none of them occurs in the inputs considered below.)  In
particular `in` does NOT test element membership. -/
def jsInArrayKeys (s : String) (arr : List String) : Bool :=
  ((List.range arr.length).any (fun k => s == toString k)) || s == "length"

/-- Embeds the selection made by `Orchestrator.deleteMembers` (part_002
lines 720-731): `collection.filter(member => member.name in names)`,
over the names of the Model's Members in collection order. -/
def deleteMembersSelect (memberNames : List String) (names : List String) : List String :=
  memberNames.filter (fun m => jsInArrayKeys m names)

/-- The selection described by the specification for `deleteMembers`:
exactly the Members whose name is an element of `names`. -/
def deleteMembersSpecSelect (memberNames : List String) (names : List String) : List String :=
  memberNames.filter (fun m => names.contains m)

/-- Claim C7 (code bug): `deleteMembers(model, ["A"])` on a Model with a
single Member named "A" selects nothing for removal — `"A" in ["A"]` is
false, because the JavaScript `in` operator tests the array's keys, not
its elements — while the spec says exactly the Members named in `names`
are removed.  Conversely, Members named "0" or "length" are selected
even though they are not listed. -/
theorem deleteMembers_in_operator_bug :
    deleteMembersSelect ["A"] ["A"] = [] ∧
    deleteMembersSpecSelect ["A"] ["A"] = ["A"] ∧
    deleteMembersSelect ["0", "length"] ["A"] = ["0", "length"] ∧
    deleteMembersSpecSelect ["0", "length"] ["A"] = [] := by
  refine ⟨?_, rfl, ?_, rfl⟩ <;> decide

/-- Embeds `Orchestrator.rename` (part_002 lines 417-441): the rename
action is committed with a fulfill callback that emits `NameChanging`,
writes the new name (`qobj.setName`) and emits `NameChanged`; no reject
callback is registered.  State: the object's stored name. -/
def Orchestrator.rename (sourceName newName : String) (resolver : RfcOutcome) :
    Except GaiaError String × String :=
  rfcCommit sourceName resolver (fun _ => (newName, newName))

/-- Embeds the commit phase of `Orchestrator.move` (part_002 lines
486-496), reached once every precondition check of `Orchestrator.move`
has passed: on fulfillment the composer removes the source from the old
parent's collection and appends it to the new parent's collection of the
same kind (`Composer.move` is not in this snapshot; spec section 4.5);
no reject callback is registered.  State: the two collections. -/
def Orchestrator.moveCommit (source : String) (fromColl toColl : List String)
    (resolver : RfcOutcome) :
    Except GaiaError String × (List String × List String) :=
  rfcCommit (fromColl, toColl) resolver
    (fun p => (source, (p.1.erase source, p.2 ++ [source])))

/-- Embeds the commit phase of `Orchestrator.deleteMembers` (part_002
lines 732-752): on fulfillment the selected Members (see
`deleteMembersSelect`) are removed from the Model's member collection as
one batch (`customRemove`); no reject callback is registered.  State:
the member names in collection order. -/
def Orchestrator.deleteMembersCommit (memberNames names : List String)
    (resolver : RfcOutcome) : Except GaiaError (List String) × List String :=
  rfcCommit memberNames resolver
    (fun ms => (deleteMembersSelect ms names,
      ms.filter (fun m => !(jsInArrayKeys m names))))

/-- Embeds the commit phase of `Orchestrator.reorderMember` (part_002
lines 691-715): on fulfillment the Member is moved from `src` to `dst`
within the owning collection (`customMove`, a remove-splice followed by
an insert-splice); no reject callback is registered. -/
def Orchestrator.reorderMemberCommit (memberNames : List String) (src dst : Nat)
    (resolver : RfcOutcome) : Except GaiaError (Option String) × List String :=
  rfcCommit memberNames resolver
    (fun ms =>
      match ms.get? src with
      | none => (none, ms)
      | some item => (some item, spliceInsert (spliceRemove ms src) dst item))

/-- Embeds `Orchestrator.updateMemberValue` and
`Orchestrator.updateFieldValue` (part_002 lines 501-551): on fulfillment
`ValueChanging` is emitted, the caller-supplied `changeValue` performs
the actual value mutation, and `ValueChanged` is emitted; no reject
callback is registered.  State: the owned value. -/
def Orchestrator.updateValueCommit (v : GValue) (changeValue : GValue → GValue)
    (resolver : RfcOutcome) : Except GaiaError GValue × GValue :=
  rfcCommit v resolver (fun old => (changeValue old, changeValue old))

/-- Claim C2: for every Orchestrator operation that submits an RFC
action, a resolver rejection raises an `RfcError` to the caller and no
local mutation occurs: the fulfill callback — the only mutator — never
runs, so every owned collection keeps its length, membership and order.
The first conjunct states this for the pipeline commit applied to an
arbitrary state and an arbitrary fulfill callback — every RFC-submitting
operation, including the get/update family (`updateMembers`,
`updateFields`, `updateQualifiedObjects`, `reorder`, `getById`), is such
an instance — and the remaining conjuncts instantiate it for
`createNamespace`, `createModel`, `createInstance`, `createMembers`,
`rename`, `move`, `deleteMembers`, `reorderMember` and the member/field
value updates. -/
theorem rejected_rfc_leaves_state_unchanged {S R : Type} (st : S)
    (fulfill : S → R × S) (ost : OrchState)
    (name id newName source err : String)
    (names ids memberNames fromColl toColl : List String)
    (src dst : Nat) (v : GValue) (changeValue : GValue → GValue) :
    rfcCommit st (RfcOutcome.rejected err) fulfill =
      (Except.error (GaiaError.rfc err), st) ∧
    Orchestrator.createNamespace ost name id (RfcOutcome.rejected err) =
      (Except.error (GaiaError.rfc err), ost) ∧
    Orchestrator.createModel ost name id (RfcOutcome.rejected err) =
      (Except.error (GaiaError.rfc err), ost) ∧
    Orchestrator.createInstance ost name id (RfcOutcome.rejected err) =
      (Except.error (GaiaError.rfc err), ost) ∧
    Orchestrator.createMembers ost names ids (RfcOutcome.rejected err) =
      (Except.error (GaiaError.rfc err), ost) ∧
    Orchestrator.rename source newName (RfcOutcome.rejected err) =
      (Except.error (GaiaError.rfc err), source) ∧
    Orchestrator.moveCommit source fromColl toColl (RfcOutcome.rejected err) =
      (Except.error (GaiaError.rfc err), (fromColl, toColl)) ∧
    Orchestrator.deleteMembersCommit memberNames names (RfcOutcome.rejected err) =
      (Except.error (GaiaError.rfc err), memberNames) ∧
    Orchestrator.reorderMemberCommit memberNames src dst (RfcOutcome.rejected err) =
      (Except.error (GaiaError.rfc err), memberNames) ∧
    Orchestrator.updateValueCommit v changeValue (RfcOutcome.rejected err) =
      (Except.error (GaiaError.rfc err), v) :=
  ⟨rfl, rfl, rfl, rfl, rfl, rfl, rfl, rfl, rfl, rfl⟩

/- ===================================================================
   Collection reconciliation (syncToMaster)
   =================================================================== -/

/-- An authoritative (master) entry: carries at least an identity. -/
structure MasterItem where
  id : Nat
deriving DecidableEq

/-- A local collection item carrying an identity; `fresh` marks items
materialized by the reconciliation factory (pre-existing local items
have `fresh = false`), so preserved identity is observable. -/
structure LocalItem where
  id : Nat
  fresh : Bool
deriving DecidableEq

/-- A reconciliation operation applied to the local collection. -/
inductive SyncOp (L : Type) where
  | removeIdx (item : L) (index : Nat)
  | addIdx (item : L) (index : Nat)
  | moveIdx (src : Nat) (dst : Nat)
deriving DecidableEq

/-- First index (and element) satisfying a predicate. -/
def findWithIndex {L : Type} (p : L → Bool) : List L → Option (Nat × L)
  | [] => none
  | x :: xs => if p x then some (0, x) else (findWithIndex p xs).map (fun q => (q.1 + 1, q.2))

/-- Modelled from the spec: the index-walking phase of `syncToMaster`
(src/core/utils/Collections, not part of this snapshot; spec section
4.3, steps 1, 3, 4).  Iterate the master order; for each position locate
the matching local item in the current list; if it is already at that
slot, no-op; if it is elsewhere, perform exactly one move to bring it
into place; if it is absent, construct it via the factory and add it at
the master's index.  Comparisons always use current positions. -/
def syncWalk {M L : Type} (eq : M → L → Bool) (create : M → L) :
    Nat → List M → List L → List L × List (SyncOp L)
  | _, [], cur => (cur, [])
  | i, m :: ms, cur =>
    match findWithIndex (eq m) cur with
    | none =>
      let item := create m
      let r := syncWalk eq create (i + 1) ms (spliceInsert cur i item)
      (r.1, SyncOp.addIdx item i :: r.2)
    | some (j, x) =>
      if j = i then
        syncWalk eq create (i + 1) ms cur
      else
        let r := syncWalk eq create (i + 1) ms (spliceInsert (spliceRemove cur j) i x)
        (r.1, SyncOp.moveIdx j i :: r.2)

/-- Modelled from the spec: `syncToMaster` (src/core/utils/Collections,
not part of this snapshot; spec section 4.3).  Local items with no
identity match in the master list are removed (step 2); the survivors
are then index-walked into the master's order, adding fresh items where
the master has an identity unknown locally (steps 1, 3, 4).  The applied
operations are recorded in order. -/
def syncToMaster {M L : Type} (eq : M → L → Bool) (create : M → L)
    (master : List M) (locals : List L) : List L × List (SyncOp L) :=
  let removes := (locals.enum.filter
      (fun q => !(master.any (fun m => eq m q.2)))).map
      (fun q => SyncOp.removeIdx q.2 q.1)
  let kept := locals.filter (fun x => master.any (fun m => eq m x))
  let r := syncWalk eq create 0 master kept
  (r.1, removes ++ r.2)

/-- The reconciliation scenario of the claim: local `[A, B, C]` with ids
1, 2, 3 against master ids `[3, 1, 4]`, with an id-matching predicate
and a factory producing `fresh` items. -/
def syncScenario : List LocalItem × List (SyncOp LocalItem) :=
  syncToMaster (fun (m : MasterItem) (l : LocalItem) => m.id == l.id)
    (fun m => LocalItem.mk m.id true)
    [MasterItem.mk 3, MasterItem.mk 1, MasterItem.mk 4]
    [LocalItem.mk 1 false, LocalItem.mk 2 false, LocalItem.mk 3 false]

/-- Claim C4: reconciling local `[A, B, C]` (ids 1, 2, 3) against master
`[3, 1, 4]` performs exactly one remove (B, at index 1), exactly one add
(the fresh item with id 4, at index 2), and one move, so that the final
order is `[C, A, D]`; the items with ids 1 and 3 in the final collection
are the original (non-fresh) objects, never destroyed and recreated. -/
theorem syncToMaster_scenario :
    syncScenario =
      ([LocalItem.mk 3 false, LocalItem.mk 1 false, LocalItem.mk 4 true],
        [SyncOp.removeIdx (LocalItem.mk 2 false) 1,
         SyncOp.moveIdx 1 0,
         SyncOp.addIdx (LocalItem.mk 4 true) 2]) ∧
    (syncScenario.2.filter (fun op => match op with
      | SyncOp.removeIdx _ _ => true
      | _ => false)) = [SyncOp.removeIdx (LocalItem.mk 2 false) 1] ∧
    (syncScenario.2.filter (fun op => match op with
      | SyncOp.addIdx _ _ => true
      | _ => false)) = [SyncOp.addIdx (LocalItem.mk 4 true) 2] ∧
    syncScenario.1.map LocalItem.id = [3, 1, 4] ∧
    (syncScenario.1.filter (fun x => x.id == 1 || x.id == 3)).all
      (fun x => !x.fresh) = true := by
  refine ⟨?_, ?_, ?_, ?_, ?_⟩ <;> rfl
